import Mathlib

/-!
Verification of the filament-geometry pipeline of `parastell/magnet_coils.py`
(class `MagnetSet`): the validating property setters, cross-section parameter
extraction, filament-file parsing, and `_set_filtered_filaments` (toroidal
filtering, sorting by center-of-mass toroidal angle, and per-filament
canonicalization: start-point selection, cyclic rotation, direction flip,
deduplication, closure).

Modeling conventions, used throughout:

The source computes with numpy float64.  The embedding uses `Q`, an exact
fraction type (integer numerator, positive denominator, no gcd
normalization) whose operations reduce in the kernel, so concrete runs are
checkable by `decide`/`rfl`.  All numeric comparisons exercised by the
theorems below have slack that is many orders of magnitude larger than
float64 rounding error, and the transcendental constants (pi and the
arctangent values of the concrete inputs) are replaced by rational
stand-ins accurate to about 1e-4, stated next to each value.

numpy.arctan2 itself is not embedded: wherever the source calls
`np.arctan2(b, a)`, the embedding applies an abstract parameter
`atan : Q -> Q -> Q` to the same two arguments.  Universal theorems hold for
every such surrogate; concrete runs instantiate it with a rational lookup
table consistent with the true arctangent values at the arguments reached.

Similarly `self.average_radial_distance` (a mean of square roots, set by
`_set_average_radial_distance`) enters `_set_filtered_filaments` only
through `np.arctan2(self.mag_len, self.average_radial_distance)`; it is a
parameter `avgRadial` of the embedded function.
-/

/-- Kernel-computable fraction: the represented value is `num / (den1 + 1)`,
so the denominator is positive by construction and no gcd normalization is
needed.  Equality of represented values is `Q.qeq` (cross multiplication),
matching float value equality in the source; structural `=` is finer. -/
structure Q where
  num : Int
  den1 : Nat
deriving DecidableEq

/-- Denominator of a `Q`, always positive. -/
def Q.den (x : Q) : Nat := x.den1 + 1

instance (n : Nat) : OfNat Q n := ⟨⟨n, 0⟩⟩

instance : Neg Q := ⟨fun x => ⟨-x.num, x.den1⟩⟩

instance : Add Q := ⟨fun x y => ⟨x.num * y.den + y.num * x.den, x.den1 * y.den1 + x.den1 + y.den1⟩⟩

instance : Sub Q := ⟨fun x y => x + (-y)⟩

instance : Mul Q := ⟨fun x y => ⟨x.num * y.num, x.den1 * y.den1 + x.den1 + y.den1⟩⟩

instance : LE Q := ⟨fun x y => x.num * y.den ≤ y.num * x.den⟩

instance : LT Q := ⟨fun x y => x.num * y.den < y.num * x.den⟩

instance : DecidableRel (fun (x y : Q) => x ≤ y) := fun x y =>
  inferInstanceAs (Decidable (x.num * y.den ≤ y.num * x.den))

instance : DecidableRel (fun (x y : Q) => x < y) := fun x y =>
  inferInstanceAs (Decidable (x.num * y.den < y.num * x.den))

/-- Value equality of two fractions (models `==` on float values). -/
def Q.qeq (x y : Q) : Bool := x.num * y.den == y.num * x.den

/-- Exact division.  The `y = 0` branch returns `0`; none of the divisions
performed by the embedded code divide by zero (the one division of the
source that can, `point[2]/next_point[2]`, is embedded as the sign test
`zcross` below). -/
def Q.div (x y : Q) : Q :=
  if 0 < y.num then ⟨x.num * y.den, x.den * y.num.toNat - 1⟩
  else if y.num < 0 then ⟨-(x.num * y.den), x.den * (-y.num).toNat - 1⟩
  else ⟨0, 0⟩

instance : Div Q := ⟨Q.div⟩

/-- Floor of a fraction (floor division of numerator by denominator). -/
def Q.floor (x : Q) : Int := x.num.fdiv x.den

/-- Embed an integer. -/
def Q.ofInt (n : Int) : Q := ⟨n, 0⟩

/-- Python / numpy `%` (floored modulo) on fractions: `a - b * floor (a/b)`.
For `b > 0` the result lies in `[0, b)`. -/
def qmod (a b : Q) : Q := a - b * Q.ofInt ((a / b).floor)

/-- Value of a `Q` as a rational number; the bridge used to import order
and field reasoning from `ℚ` into the computable model. -/
def toRat (x : Q) : ℚ := (x.num : ℚ) / (x.den : ℚ)

/-- The minimum of two values, as computed by `np.min` reductions. -/
def qmin (a b : Q) : Q := if a ≤ b then a else b

/-- The maximum of two values (also Python `max(width, thickness)`). -/
def qmax (a b : Q) : Q := if a ≤ b then b else a

/-- Minimum of a list of values; models `np.min` over a nonempty array
(the source never applies it to an empty one; `0` is a junk default). -/
def listMin : List Q → Q
  | [] => 0
  | a :: rest => rest.foldl qmin a

/-- Maximum of a list of values; models `np.max` over a nonempty array. -/
def listMax : List Q → Q
  | [] => 0
  | a :: rest => rest.foldl qmax a

/-- One filament point `[x, y, z]` (magnet_coils.py stores filaments as
arrays of such rows). -/
structure Pt where
  x : Q
  y : Q
  z : Q
deriving DecidableEq

/-- A filament: ordered list of points. -/
abbrev Fil := List Pt

/-- Junk default point for total indexing (indices used are in range). -/
def pt0 : Pt := ⟨0, 0, 0⟩

/-- Row (value) equality of points, as numpy `==` compares float rows. -/
def ptEq (p q : Pt) : Bool := Q.qeq p.x q.x && Q.qeq p.y q.y && Q.qeq p.z q.z

/-- Squared radial distance `x**2 + y**2`.  The source compares
`(point[0]**2 + point[1]**2)**0.5` values; the square root is strictly
monotone on nonnegative reals, so comparisons of the squares are
order-equivalent and are what the embedding uses. -/
def radSq (p : Pt) : Q := p.x * p.x + p.y * p.y

/-- Rational stand-in for the float64 value of `np.pi`
(3.141592653589793...). -/
def npPi : Q := ⟨3141592653589793, 999999999999999⟩

/-- Stand-in for `2 * np.pi`. -/
def twoPi : Q := 2 * npPi

/-- Sum of a list of values (models `np.average` numerators). -/
def qsum (l : List Q) : Q := l.foldl (fun a b => a + b) 0

/-- Center of mass of a filament: `np.average(fil, axis=0)`
(magnet_coils.py line 278 and lines 342-344). -/
def com (fil : Fil) : Pt :=
  ⟨qsum (fil.map Pt.x) / Q.ofInt fil.length,
   qsum (fil.map Pt.y) / Q.ofInt fil.length,
   qsum (fil.map Pt.z) / Q.ofInt fil.length⟩

/-- Angle normalization `(phi + 2*pi) % (2*pi)` of magnet_coils.py
lines 282 and 300. -/
def normAngle (raw : Q) : Q := qmod (raw + twoPi) twoPi

/-- Normalized toroidal angles of the points of a filament
(lines 280-282): `arctan2(fil[:, 1], fil[:, 0])` then normalization. -/
def phiPts (atan : Q → Q → Q) (fil : Fil) : List Q :=
  fil.map (fun p => normAngle (atan p.y p.x))

/-- Retention test of magnet_coils.py lines 284-291: a filament is kept when
`min_phi >= min_rad or min_phi <= max_rad or max_phi >= min_rad or
max_phi <= max_rad`, where `min_phi`/`max_phi` are the bounds of its
normalized point angles. -/
def retainFil (atan : Q → Q → Q) (minRad maxRad : Q) (fil : Fil) : Bool :=
  let phis := phiPts atan fil
  (decide (minRad ≤ listMin phis) || decide (listMin phis ≤ maxRad)) ||
  (decide (minRad ≤ listMax phis) || decide (listMax phis ≤ maxRad))

/-- The z-sign-crossing test `point[2]/next_point[2] < 0` of line 313, under
IEEE float division semantics: for `z2 > 0` the quotient is negative exactly
when `z1 < 0`; for `z2 < 0` exactly when `z1 > 0`; for `z2 = 0` the quotient
is `-inf` (negative) exactly when `z1 < 0` (`0/0` is nan, and `nan < 0` is
false). -/
def zcross (z1 z2 : Q) : Bool :=
  (decide (z1 < 0) && decide (0 < z2)) || (decide (0 < z1) && decide (z2 < 0)) ||
  (decide (z1 < 0) && Q.qeq z2 0)

/-- Point of a filament at an index (total; used only in range). -/
def ptAt (fil : Fil) (i : Nat) : Pt := fil.getD i pt0

/-- Indices `0 .. n-2` whose consecutive point pair crosses the z sign,
i.e. the candidate start indices scanned by lines 311-320. -/
def candIdxs (fil : Fil) : List Nat :=
  (List.range (fil.length - 1)).filter (fun i => zcross (ptAt fil i).z (ptAt fil (i + 1)).z)

/-- The start-index selection loop of lines 308-320: `min_z_index` is the
first candidate, then replaced whenever the recorded radial distance is
strictly smaller than the next candidate (so the earliest maximal-radius
candidate wins); radial distances are compared through their squares. -/
def selectStart (fil : Fil) : Option Nat :=
  (candIdxs fil).foldl
    (fun acc i =>
      match acc with
      | none => some i
      | some j => if radSq (ptAt fil j) < radSq (ptAt fil i) then some i else some j)
    none

/-- Value membership of a point in a list (row membership as numpy
equality would see it). -/
def ptMem (p : Pt) : List Pt → Bool
  | [] => false
  | q :: rest => ptEq p q || ptMem p rest

/-- Keep the first occurrence of every distinct row, preserving order:
the effect of `np.unique(..., return_index=True, axis=0)` followed by
indexing with `np.sort(idx)` (lines 331-332). -/
def uniqueFirstAux : List Pt → List Pt → List Pt
  | _, [] => []
  | seen, p :: rest =>
    if ptMem p seen then uniqueFirstAux seen rest
    else p :: uniqueFirstAux (p :: seen) rest

/-- First-occurrence deduplication of a whole list. -/
def uniqueFirst (l : List Pt) : List Pt := uniqueFirstAux [] l

/-- Canonicalization of a single filament, magnet_coils.py lines 307-335:
pick the start index (TypeError from `min_z_index + 1` with
`min_z_index = None` when no z crossing exists); rotate so it comes first
(`np.concatenate([filament[k:], filament[0:k]])`); if
`filament[k,2] > filament[k+1,2]` reverse the whole sequence
(`np.flip(..., axis=0)`); deduplicate rows keeping first occurrences;
append a copy of the (post-dedup) first point. -/
def canonicalize (fil : Fil) : Except String Fil :=
  match selectStart fil with
  | none => Except.error "TypeError"
  | some k =>
    let rotated := fil.drop k ++ fil.take k
    let oriented := if (ptAt fil (k + 1)).z < (ptAt fil k).z then rotated.reverse else rotated
    let deduped := uniqueFirst oriented
    Except.ok (deduped ++ [deduped.headD pt0])

/-- Stable insertion used to model Python `sorted(zip(keys, values))`:
an element goes before the first strictly greater key, so equal keys keep
their original relative order.  (On exactly equal float keys the source
would fall through to comparing ndarrays and raise ValueError; the model
totalizes that case as a stable sort.  No theorem below depends on an
exact key tie.) -/
def insertByKey (key : Fil → Q) (a : Fil) : List Fil → List Fil
  | [] => [a]
  | b :: rest => if key a ≤ key b then a :: b :: rest else b :: insertByKey key a rest

/-- Stable ascending sort by a key, modeling Python `sorted`. -/
def sortByKey (key : Fil → Q) : List Fil → List Fil
  | [] => []
  | a :: rest => insertByKey key a (sortByKey key rest)

/-- Raw (unnormalized) toroidal angle of a filament center of mass:
`np.arctan2(com[1], com[0])`, as used by the second sort (line 347). -/
def comAngleRaw (atan : Q → Q → Q) (fil : Fil) : Q := atan (com fil).y (com fil).x

/-- Canonicalize the filaments in order; the first failure aborts, as the
exception would abort the Python loop of lines 307-337. -/
def mapCanon : List Fil → Except String (List Fil)
  | [] => Except.ok []
  | fil :: rest =>
    match canonicalize fil with
    | Except.error e => Except.error e
    | Except.ok c =>
      match mapCanon rest with
      | Except.error e => Except.error e
      | Except.ok cs => Except.ok (c :: cs)

/-- The whole of `MagnetSet._set_filtered_filaments` (lines 244-352):
tolerance `2*arctan2(mag_len, average_radial_distance)`, window bounds
`min_rad = 2*pi - tol` and `max_rad = toroidal_extent + tol`, retention
filter, first sort by the normalized center-of-mass angle (lines 298-304),
per-filament canonicalization written back in place, and the second sort by
the raw (not normalized) center-of-mass angle of the canonicalized
filaments (lines 340-350).  The in-place numpy row assignment of line 337
additionally requires the canonicalized filament to keep its original
length (true of closed filaments with exactly the closing duplicate, as in
every concrete run below); the list model imposes no such shape
constraint. -/
def set_filtered_filaments (atan : Q → Q → Q) (toroidalExtent magLen avgRadial : Q)
    (filaments : List Fil) : Except String (List Fil) :=
  let tol := 2 * atan magLen avgRadial
  let minRad := twoPi - tol
  let maxRad := toroidalExtent + tol
  let reducedFils := filaments.filter (retainFil atan minRad maxRad)
  let sorted1 := sortByKey (fun fil => normAngle (comAngleRaw atan fil)) reducedFils
  match mapCanon sorted1 with
  | Except.error e => Except.error e
  | Except.ok canon => Except.ok (sortByKey (comAngleRaw atan) canon)

/-- Checker for the spec sort-order property: consecutive keys are
non-decreasing along the list. -/
def sortedAscBy (key : Fil → Q) : List Fil → Bool
  | [] => true
  | [_] => true
  | a :: b :: rest => decide (key a ≤ key b) && sortedAscBy key (b :: rest)

/-- Checker: no two consecutive points are equal. -/
def noConsecDup : List Pt → Bool
  | [] => true
  | [_] => true
  | a :: b :: rest => !ptEq a b && noConsecDup (b :: rest)

/-- Checker for the spec closure property: first point equals last point,
and no two consecutive points other than the closing pair are equal
(dropping the last point removes exactly the closing pair from the
consecutive-pair scan). -/
def closedCheck (fil : Fil) : Bool :=
  ptEq (fil.headD pt0) (fil.getLastD pt0) && noConsecDup fil.dropLast

/-- Checker: all points of a list are pairwise distinct rows. -/
def allDistinct : List Pt → Bool
  | [] => true
  | p :: rest => !ptMem p rest && allDistinct rest

/-- Modeled from the spec: the wrap-around toroidal window
`[min_rad, 2*pi) ∪ [0, max_rad]` in which the retention property of
section 4.4 places the filament angles.  This definition follows the words
of the spec and is compared against the retention test of the source. -/
def inWindow (minRad maxRad phi : Q) : Prop :=
  (minRad ≤ phi ∧ phi < twoPi) ∨ ((0 : Q) ≤ phi ∧ phi ≤ maxRad)

/-- Value triple of a point (for reasoning about `ptEq` as an equivalence). -/
def ptVal (p : Pt) : ℚ × ℚ × ℚ := (toRat p.x, toRat p.y, toRat p.z)

/-- Python-list model of a `cross_section` specification: the shape tag
(first list element) and the numeric entries after it.  Claims exercise
only string-tagged, numeric-parameter lists; for any first element that is
not the string circle/rectangle the source reaches the same error branch. -/
structure CrossSec where
  tag : String
  params : List Q
deriving DecidableEq

/-- Length of the Python list `self._cross_section` (tag included). -/
def csLen (cs : CrossSec) : Nat := 1 + cs.params.length

/-- Structured stand-in for the Cubit `shape_str` f-string built at
lines 144 and 162 (shape plus the dimension values interpolated into it). -/
inductive ShapeStr where
  | circle (radius : Q)
  | rectangle (width thickness : Q)
deriving DecidableEq

/-- `MagnetSet._extract_cross_section` (lines 97-184): for a circle, a
1-element list is a ValueError and the radius is entry 1 (extra entries
only produce a logged warning and are ignored); for a rectangle the list
must have exactly 3 elements and `mag_len = max(width, thickness)`; any
other tag is a ValueError. -/
def extract_cross_section (cs : CrossSec) : Except String (String × ShapeStr × Q) :=
  let shape := cs.tag
  if shape = "circle" then
    if csLen cs = 1 then Except.error "ValueError"
    else
      let mag_len := cs.params.headD 0
      Except.ok (shape, ShapeStr.circle mag_len, mag_len)
  else if shape = "rectangle" then
    if csLen cs ≠ 3 then Except.error "ValueError"
    else
      let width := cs.params.headD 0
      let thickness := (cs.params.drop 1).headD 0
      Except.ok (shape, ShapeStr.rectangle width thickness, qmax width thickness)
  else Except.error "ValueError"

/-- The attributes of a `MagnetSet` touched by the validating setters. -/
structure MagState where
  _cross_section : CrossSec
  shape : String
  shape_str : ShapeStr
  mag_len : Q
  _toroidal_extent : Q
deriving DecidableEq

/-- `np.deg2rad`: multiply by pi/180. -/
def deg2rad (angle : Q) : Q := angle * npPi / 180

/-- The `cross_section` property setter (lines 70-73): store the raw value
in `self._cross_section`, then run `_extract_cross_section`, which either
raises (leaving `shape`, `shape_str`, `mag_len` at their previous values)
or assigns all three.  An error result carries the object state at the
moment the exception propagates. -/
def set_cross_section (st : MagState) (v : CrossSec) : Except MagState MagState :=
  let st1 := { st with _cross_section := v }
  match extract_cross_section v with
  | Except.error _ => Except.error st1
  | Except.ok (sh, ss, ml) =>
    Except.ok { st1 with shape := sh, shape_str := ss, mag_len := ml }

/-- The `toroidal_extent` property setter (lines 79-87): store
`np.deg2rad(angle)` in `self._toroidal_extent`, then raise ValueError if
the stored RADIAN value exceeds 360.0 (the comparison the source actually
performs).  An error result carries the object state at the raise. -/
def set_toroidal_extent (st : MagState) (angle : Q) : Except MagState MagState :=
  let st1 := { st with _toroidal_extent := deg2rad angle }
  if (360 : Q) < deg2rad angle then Except.error st1 else Except.ok st1

/-- Whether a setter call raised. -/
def raised (r : Except MagState MagState) : Bool :=
  match r with
  | Except.error _ => true
  | Except.ok _ => false

/-- One whitespace token of a coil-file data line: either a token that
parses as a float (carrying its value) or one that does not (carrying its
text, e.g. the terminator `end`). -/
inductive Tok where
  | num (v : Q)
  | str (s : String)
deriving DecidableEq

/-- `columns[i]` with Python semantics: IndexError past the end. -/
def getTok (line : List Tok) (i : Nat) : Except String Tok :=
  match line.get? i with
  | some t => Except.ok t
  | none => Except.error "IndexError"

/-- Python `float(token)`: ValueError on a non-float token. -/
def pyFloat : Tok → Except String Q
  | Tok.num v => Except.ok v
  | Tok.str _ => Except.error "ValueError"

/-- The `columns[0] == 'end'` test (a float-parsing token never equals
the string `end`). -/
def isEnd (t : Tok) : Bool := t == Tok.str "end"

/-- Result of reading one data line. -/
inductive LineRead where
  | stop
  | point (x y z s : Q)

/-- Reading of one line by the loop body of lines 199-210, in source
evaluation order: index 0, the `end` test, then
`float(columns[0])*scale`, `float(columns[1])*scale`,
`float(columns[2])*scale`, `float(columns[3])` (the current `s` is not
scaled); the first IndexError or ValueError aborts. -/
def readLine (scale : Q) (line : List Tok) : Except String LineRead :=
  (getTok line 0).bind fun t0 =>
    if isEnd t0 then Except.ok LineRead.stop
    else
      (pyFloat t0).bind fun xv =>
      (getTok line 1).bind fun t1 =>
      (pyFloat t1).bind fun yv =>
      (getTok line 2).bind fun t2 =>
      (pyFloat t2).bind fun zv =>
      (getTok line 3).bind fun t3 =>
      (pyFloat t3).bind fun s =>
      Except.ok (LineRead.point (xv * scale) (yv * scale) (zv * scale) s)

/-- The accumulation loop of `MagnetSet._extract_filaments`
(lines 193-223): `end` returns what was collected; `s = 0` closes the
current filament (the closing point included); otherwise the point is
sampled when `sample_counter % sample_mod == 0`.  A trailing unterminated
filament is dropped, as in the source. -/
def extract_filaments_loop (scale : Q) (sampleMod : Nat) :
    List (List Tok) → Nat → List Pt → List Fil → Except String (List Fil)
  | [], _, _, fils => Except.ok fils
  | line :: rest, cnt, coords, fils =>
    match readLine scale line with
    | Except.error e => Except.error e
    | Except.ok LineRead.stop => Except.ok fils
    | Except.ok (LineRead.point x y z s) =>
      if Q.qeq s 0 then
        extract_filaments_loop scale sampleMod rest 0 [] (fils ++ [coords ++ [⟨x, y, z⟩]])
      else if cnt % sampleMod == 0 then
        extract_filaments_loop scale sampleMod rest (cnt + 1) (coords ++ [⟨x, y, z⟩]) fils
      else
        extract_filaments_loop scale sampleMod rest (cnt + 1) coords fils

/-- `MagnetSet._extract_filaments` on the tokenized data lines after the
`start_line` header slice (file reading and `readlines` are outside the
model). -/
def extract_filaments (scale : Q) (sampleMod : Nat) (dataLines : List (List Tok)) :
    Except String (List Fil) :=
  extract_filaments_loop scale sampleMod dataLines 0 [] []

/-- Whether a token parses as a float. -/
def isNumTok : Tok → Bool
  | Tok.num _ => true
  | Tok.str _ => false

/-- Fraction with the given numerator and positive denominator. -/
def mkq (n : Int) (d : Nat) : Q := ⟨n, d - 1⟩

/-- Rational surrogate values (accurate to about 1e-4) for `np.arctan2` at
the positive-y arguments reached by the concrete runs below:
arctan2(1, 10) = 0.0997, arctan2(1, 12) = 0.0831, arctan2(1, 11) = 0.0907,
arctan2(1, 10.8) = 0.0923, arctan2(5, 11) = 0.4266.  Every branch decision
taken with these values has slack larger than 0.4. -/
def atanPosCE (y x : Q) : Q :=
  if Q.qeq y 1 && Q.qeq x 10 then mkq 997 10000
  else if Q.qeq y 1 && Q.qeq x 12 then mkq 831 10000
  else if Q.qeq y 1 && Q.qeq x 11 then mkq 907 10000
  else if Q.qeq y 1 && Q.qeq x (mkq 54 5) then mkq 923 10000
  else if Q.qeq y 5 && Q.qeq x 11 then mkq 4266 10000
  else mkq 1 10

/-- Concrete `np.arctan2` surrogate: zero on the positive x axis, odd in y,
table values elsewhere (all arguments reached have x > 0). -/
def atanCE (y x : Q) : Q :=
  if Q.qeq y 0 then 0
  else if 0 < y then atanPosCE y x
  else -(atanPosCE (-y) x)

/-- Closed square filament at toroidal angle about -0.09 rad (y = -1):
(10,-1,-1), (10,-1,1), (12,-1,1), (12,-1,-1), closing back to the start. -/
def filA : Fil := [⟨10, -1, -1⟩, ⟨10, -1, 1⟩, ⟨12, -1, 1⟩, ⟨12, -1, -1⟩, ⟨10, -1, -1⟩]

/-- Mirror filament of `filA` at toroidal angle about +0.09 rad (y = 1). -/
def filB : Fil := [⟨10, 1, -1⟩, ⟨10, 1, 1⟩, ⟨12, 1, 1⟩, ⟨12, 1, -1⟩, ⟨10, 1, -1⟩]

/-- Canonicalized form of `filA` as the code produces it (start index 2,
reversed by the flip step, deduplicated, closed). -/
def canonA : Fil := [⟨10, -1, 1⟩, ⟨10, -1, -1⟩, ⟨12, -1, -1⟩, ⟨12, -1, 1⟩, ⟨10, -1, 1⟩]

/-- Canonicalized form of `filB` as the code produces it. -/
def canonB : Fil := [⟨10, 1, 1⟩, ⟨10, 1, -1⟩, ⟨12, 1, -1⟩, ⟨12, 1, 1⟩, ⟨10, 1, 1⟩]

/-- Closed filament on the y = 0 plane whose z-crossing candidates sit at
radius 10 (points (10,0,1) and (10,0,-1)) while the points preceding the
selected start have radius 5 and 6. -/
def filC2 : Fil := [⟨5, 0, 2⟩, ⟨6, 0, 5⟩, ⟨10, 0, 1⟩, ⟨10, 0, -1⟩, ⟨5, 0, 2⟩]

/-- What the code produces from `filC2` (flip moves the start to (6,0,5)). -/
def outC2 : Fil := [⟨6, 0, 5⟩, ⟨5, 0, 2⟩, ⟨10, 0, -1⟩, ⟨10, 0, 1⟩, ⟨6, 0, 5⟩]

/-- Variant of `filC2` whose post-flip first two points have strictly
decreasing z (9 then 4). -/
def filC3 : Fil := [⟨5, 0, 4⟩, ⟨6, 0, 9⟩, ⟨10, 0, 1⟩, ⟨10, 0, -1⟩, ⟨5, 0, 4⟩]

/-- What the code produces from `filC3`. -/
def outC3 : Fil := [⟨6, 0, 9⟩, ⟨5, 0, 4⟩, ⟨10, 0, -1⟩, ⟨10, 0, 1⟩, ⟨6, 0, 9⟩]

/-- Closed filament entirely above the midplane (every z > 0): no
consecutive pair crosses the z sign. -/
def filC7 : Fil := [⟨10, 0, 1⟩, ⟨11, 0, 2⟩, ⟨12, 0, 1⟩, ⟨10, 0, 1⟩]

/-- A valid initial object state for the setter runs. -/
def st0 : MagState := ⟨⟨"circle", [5]⟩, "circle", ShapeStr.circle 5, 5, 0⟩

theorem toRat_den_pos (x : Q) : (0 : ℚ) < (x.den : ℚ) := by
  have : (0 : ℕ) < x.den := Nat.succ_pos _
  exact_mod_cast this

theorem Q.le_iff (x y : Q) : x ≤ y ↔ toRat x ≤ toRat y := by
  show x.num * y.den ≤ y.num * x.den ↔ _
  rw [toRat, toRat, div_le_div_iff₀ (toRat_den_pos x) (toRat_den_pos y)]
  constructor
  · intro h
    exact_mod_cast h
  · intro h
    exact_mod_cast h

theorem Q.lt_iff (x y : Q) : x < y ↔ toRat x < toRat y := by
  show x.num * y.den < y.num * x.den ↔ _
  rw [toRat, toRat, div_lt_div_iff₀ (toRat_den_pos x) (toRat_den_pos y)]
  constructor
  · intro h
    exact_mod_cast h
  · intro h
    exact_mod_cast h

theorem Q.qeq_iff (x y : Q) : Q.qeq x y = true ↔ toRat x = toRat y := by
  rw [qeq, beq_iff_eq, toRat, toRat,
    div_eq_div_iff (ne_of_gt (toRat_den_pos x)) (ne_of_gt (toRat_den_pos y))]
  constructor
  · intro h
    exact_mod_cast h
  · intro h
    exact_mod_cast h

theorem Q.den_add (x y : Q) : (x + y).den = x.den * y.den := by
  show (x.den1 * y.den1 + x.den1 + y.den1) + 1 = (x.den1 + 1) * (y.den1 + 1)
  ring

theorem toRat_add (x y : Q) : toRat (x + y) = toRat x + toRat y := by
  have hd : ((x + y).den : ℚ) = (x.den : ℚ) * (y.den : ℚ) := by
    rw [Q.den_add]
    push_cast
    ring
  show ((x + y).num : ℚ) / _ = _
  have hn : ((x + y).num : ℚ) = (x.num : ℚ) * (y.den : ℚ) + (y.num : ℚ) * (x.den : ℚ) := by
    show ((x.num * y.den + y.num * x.den : Int) : ℚ) = _
    push_cast
    ring
  rw [toRat, toRat, hn, hd]
  have hx : ((x.den : ℕ) : ℚ) ≠ 0 := ne_of_gt (toRat_den_pos x)
  have hy : ((y.den : ℕ) : ℚ) ≠ 0 := ne_of_gt (toRat_den_pos y)
  field_simp

theorem toRat_neg (x : Q) : toRat (-x) = -toRat x := by
  have hd : (-x).den = x.den := rfl
  show ((-x.num : Int) : ℚ) / ((-x).den : ℚ) = _
  rw [hd, toRat]
  push_cast
  ring

theorem toRat_mul (x y : Q) : toRat (x * y) = toRat x * toRat y := by
  have hd : ((x * y).den : ℚ) = (x.den : ℚ) * (y.den : ℚ) := by
    show (((x.den1 * y.den1 + x.den1 + y.den1) + 1 : ℕ) : ℚ) =
      ((x.den1 + 1 : ℕ) : ℚ) * ((y.den1 + 1 : ℕ) : ℚ)
    push_cast
    ring
  show ((x.num * y.num : Int) : ℚ) / _ = _
  rw [hd, toRat, toRat]
  push_cast
  have hx : ((x.den : ℕ) : ℚ) ≠ 0 := ne_of_gt (toRat_den_pos x)
  have hy : ((y.den : ℕ) : ℚ) ≠ 0 := ne_of_gt (toRat_den_pos y)
  field_simp

theorem Q.num_pos_of_toRat_pos {y : Q} (h : 0 < toRat y) : 0 < y.num := by
  rw [toRat] at h
  have hd := toRat_den_pos y
  have h2 : (0 : ℚ) < (y.num : ℚ) := by
    by_contra hc
    push_neg at hc
    have : (y.num : ℚ) / (y.den : ℚ) ≤ 0 := div_nonpos_of_nonpos_of_nonneg hc (le_of_lt hd)
    linarith
  exact_mod_cast h2

theorem toRat_div (x y : Q) (hy : 0 < toRat y) : toRat (x / y) = toRat x / toRat y := by
  have hn := Q.num_pos_of_toRat_pos hy
  show toRat (Q.div x y) = _
  rw [Q.div, if_pos hn]
  have hden : (⟨x.num * y.den, x.den * y.num.toNat - 1⟩ : Q).den = x.den * y.num.toNat := by
    show (x.den * y.num.toNat - 1) + 1 = x.den * y.num.toNat
    have h1 : 1 ≤ y.num.toNat := by omega
    have : 1 ≤ x.den * y.num.toNat := Nat.one_le_iff_ne_zero.mpr (by
      have : 0 < x.den * y.num.toNat := Nat.mul_pos (Nat.succ_pos _) (by omega)
      omega)
    omega
  rw [toRat, hden, toRat, toRat]
  have hyn : ((y.num.toNat : ℕ) : ℚ) = (y.num : ℚ) := by
    exact_mod_cast congrArg (fun (n : Int) => (n : ℚ)) (Int.toNat_of_nonneg (le_of_lt hn))
  push_cast
  rw [hyn]
  have hx : ((x.den : ℕ) : ℚ) ≠ 0 := ne_of_gt (toRat_den_pos x)
  have hyd : ((y.den : ℕ) : ℚ) ≠ 0 := ne_of_gt (toRat_den_pos y)
  have hyn' : (y.num : ℚ) ≠ 0 := by exact_mod_cast ne_of_gt hn
  field_simp

theorem Q.floor_eq (x : Q) : Q.floor x = ⌊toRat x⌋ := by
  rw [toRat, Rat.floor_intCast_div_natCast]
  exact Int.fdiv_eq_ediv _ (Int.ofNat_nonneg _)

theorem toRat_zero : toRat (0 : Q) = 0 := by
  show ((0 : Int) : ℚ) / ((1 : ℕ) : ℚ) = 0
  norm_num

theorem toRat_ofInt (n : Int) : toRat (Q.ofInt n) = (n : ℚ) := by
  show ((n : Int) : ℚ) / ((1 : ℕ) : ℚ) = (n : ℚ)
  norm_num

theorem toRat_sub (x y : Q) : toRat (x - y) = toRat x - toRat y := by
  show toRat (x + (-y)) = _
  rw [toRat_add, toRat_neg]
  ring

theorem toRat_qmod (a b : Q) (hb : 0 < toRat b) :
    toRat (qmod a b) = toRat b * Int.fract (toRat a / toRat b) := by
  rw [qmod, toRat_sub, toRat_mul, toRat_ofInt, Q.floor_eq, toRat_div a b hb, Int.fract]
  have hbne : toRat b ≠ 0 := ne_of_gt hb
  field_simp

theorem qmod_nonneg (a b : Q) (hb : 0 < toRat b) : (0 : Q) ≤ qmod a b := by
  rw [Q.le_iff, toRat_zero, toRat_qmod a b hb]
  exact mul_nonneg (le_of_lt hb) (Int.fract_nonneg _)

theorem qmod_lt (a b : Q) (hb : 0 < toRat b) : qmod a b < b := by
  rw [Q.lt_iff, toRat_qmod a b hb]
  calc toRat b * Int.fract (toRat a / toRat b) < toRat b * 1 :=
        mul_lt_mul_of_pos_left (Int.fract_lt_one _) hb
    _ = toRat b := mul_one _

theorem Q.le_rfl (a : Q) : a ≤ a := le_refl (a.num * a.den)

theorem Q.le_trans' {a b c : Q} (h1 : a ≤ b) (h2 : b ≤ c) : a ≤ c := by
  rw [Q.le_iff] at *
  exact le_trans h1 h2

theorem Q.le_of_not_le {a b : Q} (h : ¬ a ≤ b) : b ≤ a := by
  rw [Q.le_iff] at *
  exact (le_total (toRat a) (toRat b)).resolve_left h

theorem qmin_le_left (a b : Q) : qmin a b ≤ a := by
  rw [qmin]
  split
  · exact Q.le_rfl a
  · exact Q.le_of_not_le (by assumption)

theorem qmin_le_right (a b : Q) : qmin a b ≤ b := by
  rw [qmin]
  split
  · assumption
  · exact Q.le_rfl b

theorem qmin_eq_or (a b : Q) : qmin a b = a ∨ qmin a b = b := by
  rw [qmin]
  split
  · exact Or.inl rfl
  · exact Or.inr rfl

theorem le_qmax_left (a b : Q) : a ≤ qmax a b := by
  rw [qmax]
  split
  · assumption
  · exact Q.le_rfl a

theorem le_qmax_right (a b : Q) : b ≤ qmax a b := by
  rw [qmax]
  split
  · exact Q.le_rfl b
  · exact Q.le_of_not_le (by assumption)

theorem qmax_eq_or (a b : Q) : qmax a b = a ∨ qmax a b = b := by
  rw [qmax]
  split
  · exact Or.inr rfl
  · exact Or.inl rfl

theorem foldl_qmin_le_init (l : List Q) (acc : Q) : l.foldl qmin acc ≤ acc := by
  induction l generalizing acc with
  | nil => exact Q.le_rfl acc
  | cons a rest ih =>
    exact Q.le_trans' (ih (qmin acc a)) (qmin_le_left acc a)

theorem foldl_qmin_le_mem (l : List Q) (acc : Q) (a : Q) (h : a ∈ l) : l.foldl qmin acc ≤ a := by
  induction l generalizing acc with
  | nil => cases h
  | cons b rest ih =>
    rcases List.mem_cons.mp h with hb | hr
    · subst hb
      exact Q.le_trans' (foldl_qmin_le_init rest (qmin acc a)) (qmin_le_right acc a)
    · exact ih (qmin acc b) hr

theorem foldl_qmin_mem (l : List Q) (acc : Q) : l.foldl qmin acc = acc ∨ l.foldl qmin acc ∈ l := by
  induction l generalizing acc with
  | nil => exact Or.inl rfl
  | cons a rest ih =>
    rcases ih (qmin acc a) with h | h
    · rcases qmin_eq_or acc a with h2 | h2
      · exact Or.inl (by rw [List.foldl_cons, h, h2])
      · refine Or.inr ?_
        rw [List.foldl_cons, h, h2]
        exact List.mem_cons_self a rest
    · exact Or.inr (List.mem_cons_of_mem a h)

theorem listMin_le (l : List Q) (a : Q) (h : a ∈ l) : listMin l ≤ a := by
  cases l with
  | nil => cases h
  | cons b rest =>
    rcases List.mem_cons.mp h with hb | hr
    · subst hb
      exact foldl_qmin_le_init rest a
    · exact foldl_qmin_le_mem rest b a hr

theorem listMin_mem (l : List Q) (h : l ≠ []) : listMin l ∈ l := by
  cases l with
  | nil => exact absurd rfl h
  | cons b rest =>
    rcases foldl_qmin_mem rest b with h2 | h2
    · rw [listMin, h2]
      exact List.mem_cons_self b rest
    · exact List.mem_cons_of_mem b h2

theorem init_le_foldl_qmax (l : List Q) (acc : Q) : acc ≤ l.foldl qmax acc := by
  induction l generalizing acc with
  | nil => exact Q.le_rfl acc
  | cons a rest ih =>
    exact Q.le_trans' (le_qmax_left acc a) (ih (qmax acc a))

theorem mem_le_foldl_qmax (l : List Q) (acc : Q) (a : Q) (h : a ∈ l) : a ≤ l.foldl qmax acc := by
  induction l generalizing acc with
  | nil => cases h
  | cons b rest ih =>
    rcases List.mem_cons.mp h with hb | hr
    · subst hb
      exact Q.le_trans' (le_qmax_right acc a) (init_le_foldl_qmax rest (qmax acc a))
    · exact ih (qmax acc b) hr

theorem foldl_qmax_mem (l : List Q) (acc : Q) : l.foldl qmax acc = acc ∨ l.foldl qmax acc ∈ l := by
  induction l generalizing acc with
  | nil => exact Or.inl rfl
  | cons a rest ih =>
    rcases ih (qmax acc a) with h | h
    · rcases qmax_eq_or acc a with h2 | h2
      · exact Or.inl (by rw [List.foldl_cons, h, h2])
      · refine Or.inr ?_
        rw [List.foldl_cons, h, h2]
        exact List.mem_cons_self a rest
    · exact Or.inr (List.mem_cons_of_mem a h)

theorem le_listMax (l : List Q) (a : Q) (h : a ∈ l) : a ≤ listMax l := by
  cases l with
  | nil => cases h
  | cons b rest =>
    rcases List.mem_cons.mp h with hb | hr
    · subst hb
      exact init_le_foldl_qmax rest a
    · exact mem_le_foldl_qmax rest b a hr

theorem listMax_mem (l : List Q) (h : l ≠ []) : listMax l ∈ l := by
  cases l with
  | nil => exact absurd rfl h
  | cons b rest =>
    rcases foldl_qmax_mem rest b with h2 | h2
    · rw [listMax, h2]
      exact List.mem_cons_self b rest
    · exact List.mem_cons_of_mem b h2

theorem twoPi_pos : (0 : Q) < twoPi := by decide

theorem toRat_twoPi_pos : 0 < toRat twoPi := by
  have h := twoPi_pos
  rw [Q.lt_iff, toRat_zero] at h
  exact h

theorem normAngle_nonneg (raw : Q) : (0 : Q) ≤ normAngle raw :=
  qmod_nonneg _ _ toRat_twoPi_pos

theorem normAngle_lt_twoPi (raw : Q) : normAngle raw < twoPi :=
  qmod_lt _ _ toRat_twoPi_pos

theorem inWindow_iff (minRad maxRad phi : Q) (h0 : (0 : Q) ≤ phi) (h2 : phi < twoPi) :
    inWindow minRad maxRad phi ↔ (minRad ≤ phi ∨ phi ≤ maxRad) := by
  constructor
  · rintro (⟨h, _⟩ | ⟨_, h⟩)
    · exact Or.inl h
    · exact Or.inr h
  · rintro (h | h)
    · exact Or.inl ⟨h, h2⟩
    · exact Or.inr ⟨h0, h⟩

theorem phiPts_mem_bounds (atan : Q → Q → Q) (fil : Fil) (phi : Q)
    (h : phi ∈ phiPts atan fil) : (0 : Q) ≤ phi ∧ phi < twoPi := by
  rw [phiPts, List.mem_map] at h
  obtain ⟨p, _, rfl⟩ := h
  exact ⟨normAngle_nonneg _, normAngle_lt_twoPi _⟩

theorem phiPts_ne_nil (atan : Q → Q → Q) (fil : Fil) (hne : fil ≠ []) :
    phiPts atan fil ≠ [] := by
  rw [phiPts]
  intro hc
  exact hne (List.map_eq_nil_iff.mp hc)

theorem retainFil_eq_props (atan : Q → Q → Q) (minRad maxRad : Q) (fil : Fil) :
    retainFil atan minRad maxRad fil = true ↔
      ((minRad ≤ listMin (phiPts atan fil) ∨ listMin (phiPts atan fil) ≤ maxRad) ∨
       (minRad ≤ listMax (phiPts atan fil) ∨ listMax (phiPts atan fil) ≤ maxRad)) := by
  rw [retainFil]
  simp only [Bool.or_eq_true, decide_eq_true_eq]

theorem insertByKey_sorted (key : Fil → Q) (a : Fil) :
    ∀ l : List Fil, sortedAscBy key l = true → sortedAscBy key (insertByKey key a l) = true := by
  intro l
  induction l with
  | nil =>
    intro _
    rfl
  | cons b rest ih =>
    intro h
    rw [insertByKey]
    split
    · rename_i hab
      show (decide (key a ≤ key b) && sortedAscBy key (b :: rest)) = true
      simp [hab, h]
    · rename_i hab
      have hba := Q.le_of_not_le hab
      cases rest with
      | nil =>
        show sortedAscBy key (b :: insertByKey key a []) = true
        show (decide (key b ≤ key a) && sortedAscBy key [a]) = true
        simp [hba, sortedAscBy]
      | cons c rest2 =>
        simp only [sortedAscBy, Bool.and_eq_true, decide_eq_true_eq] at h
        obtain ⟨hbc, hsr⟩ := h
        have hins := ih hsr
        rw [insertByKey] at hins ⊢
        split
        · rename_i hac
          show (decide (key b ≤ key a) && sortedAscBy key (a :: c :: rest2)) = true
          have h2 : sortedAscBy key (a :: c :: rest2) = true := by
            show (decide (key a ≤ key c) && sortedAscBy key (c :: rest2)) = true
            simp [hac, hsr]
          simp [hba, h2]
        · rename_i hac
          show (decide (key b ≤ key c) && sortedAscBy key (c :: insertByKey key a rest2)) = true
          rw [if_neg hac] at hins
          simp [hbc, hins]

theorem sortByKey_sorted (key : Fil → Q) (l : List Fil) :
    sortedAscBy key (sortByKey key l) = true := by
  induction l with
  | nil => rfl
  | cons a rest ih => exact insertByKey_sorted key a _ ih

theorem mem_insertByKey (key : Fil → Q) (a x : Fil) :
    ∀ l : List Fil, (x ∈ insertByKey key a l ↔ x = a ∨ x ∈ l) := by
  intro l
  induction l with
  | nil => simp [insertByKey]
  | cons b rest ih =>
    rw [insertByKey]
    split
    · simp [List.mem_cons]
    · rw [List.mem_cons, ih, List.mem_cons]
      tauto

theorem mem_sortByKey (key : Fil → Q) (x : Fil) :
    ∀ l : List Fil, (x ∈ sortByKey key l ↔ x ∈ l) := by
  intro l
  induction l with
  | nil => simp [sortByKey]
  | cons a rest ih =>
    rw [sortByKey, mem_insertByKey, ih, List.mem_cons]

theorem mapCanon_ok_mem :
    ∀ (l res : List Fil), mapCanon l = Except.ok res →
      ∀ y, y ∈ res → ∃ x, x ∈ l ∧ canonicalize x = Except.ok y := by
  intro l
  induction l with
  | nil =>
    intro res h y hy
    rw [mapCanon] at h
    injection h with h
    subst h
    cases hy
  | cons fil rest ih =>
    intro res h y hy
    rw [mapCanon] at h
    cases hc : canonicalize fil with
    | error e =>
      rw [hc] at h
      cases h
    | ok c =>
      rw [hc] at h
      cases hm : mapCanon rest with
      | error e =>
        rw [hm] at h
        cases h
      | ok cs =>
        rw [hm] at h
        injection h with h
        subst h
        rcases List.mem_cons.mp hy with hyc | hycs
        · exact ⟨fil, List.mem_cons_self fil rest, hyc ▸ hc⟩
        · obtain ⟨x, hx, hcx⟩ := ih cs hm y hycs
          exact ⟨x, List.mem_cons_of_mem fil hx, hcx⟩

theorem ptEq_iff (p q : Pt) : ptEq p q = true ↔ ptVal p = ptVal q := by
  simp only [ptEq, Bool.and_eq_true, Q.qeq_iff, ptVal, Prod.ext_iff]
  tauto

theorem ptEq_refl (p : Pt) : ptEq p p = true := (ptEq_iff p p).mpr rfl

theorem ptMem_iff (p : Pt) : ∀ l : List Pt, (ptMem p l = true ↔ ∃ r, r ∈ l ∧ ptVal p = ptVal r) := by
  intro l
  induction l with
  | nil => simp [ptMem]
  | cons q rest ih =>
    rw [ptMem]
    simp only [Bool.or_eq_true, ptEq_iff, ih]
    constructor
    · rintro (h | ⟨r, hr, hv⟩)
      · exact ⟨q, List.mem_cons_self q rest, h⟩
      · exact ⟨r, List.mem_cons_of_mem q hr, hv⟩
    · rintro ⟨r, hr, hv⟩
      rcases List.mem_cons.mp hr with hq | hrest
      · exact Or.inl (hq ▸ hv)
      · exact Or.inr ⟨r, hrest, hv⟩

theorem uniqueFirstAux_not_mem (q : Pt) :
    ∀ (l seen : List Pt), ptMem q seen = true → ptMem q (uniqueFirstAux seen l) = false := by
  intro l
  induction l with
  | nil =>
    intro seen _
    rfl
  | cons p rest ih =>
    intro seen hq
    rw [uniqueFirstAux]
    split
    · exact ih seen hq
    · rename_i hp
      show (ptEq q p || ptMem q (uniqueFirstAux (p :: seen) rest)) = false
      have h1 : ptEq q p = false := by
        by_contra hc
        rw [Bool.not_eq_false] at hc
        rw [ptEq_iff] at hc
        obtain ⟨r, hr, hv⟩ := (ptMem_iff q seen).mp hq
        have : ptMem p seen = true := (ptMem_iff p seen).mpr ⟨r, hr, hc ▸ hv⟩
        rw [this] at hp
        exact hp rfl
      have h2 : ptMem q (uniqueFirstAux (p :: seen) rest) = false := by
        apply ih
        rw [ptMem, hq]
        simp
      rw [h1, h2]
      rfl

theorem allDistinct_uniqueFirstAux :
    ∀ (l seen : List Pt), allDistinct (uniqueFirstAux seen l) = true := by
  intro l
  induction l with
  | nil =>
    intro seen
    rfl
  | cons p rest ih =>
    intro seen
    rw [uniqueFirstAux]
    split
    · exact ih seen
    · show (!ptMem p (uniqueFirstAux (p :: seen) rest) &&
        allDistinct (uniqueFirstAux (p :: seen) rest)) = true
      have h1 : ptMem p (uniqueFirstAux (p :: seen) rest) = false := by
        apply uniqueFirstAux_not_mem
        rw [ptMem, ptEq_refl]
        rfl
      rw [h1]
      simp [ih (p :: seen)]

theorem noConsecDup_of_allDistinct : ∀ l : List Pt, allDistinct l = true → noConsecDup l = true := by
  intro l
  induction l with
  | nil =>
    intro _
    rfl
  | cons p rest ih =>
    intro h
    cases rest with
    | nil => rfl
    | cons q rest2 =>
      rw [allDistinct, Bool.and_eq_true] at h
      obtain ⟨h1, h2⟩ := h
      show (!ptEq p q && noConsecDup (q :: rest2)) = true
      have hpq : ptEq p q = false := by
        rw [ptMem, Bool.not_eq_true', Bool.or_eq_false_iff] at h1
        exact h1.1
      rw [hpq]
      simp [ih h2]

theorem canonicalize_closed (fil o : Fil) (h : canonicalize fil = Except.ok o) :
    closedCheck o = true := by
  rw [canonicalize] at h
  cases hsel : selectStart fil with
  | none =>
    rw [hsel] at h
    cases h
  | some k =>
    rw [hsel] at h
    injection h with h
    subst h
    have hdist : allDistinct (uniqueFirst
        (if (ptAt fil (k + 1)).z < (ptAt fil k).z
         then (fil.drop k ++ fil.take k).reverse
         else fil.drop k ++ fil.take k)) = true := allDistinct_uniqueFirstAux _ []
    set d := uniqueFirst
        (if (ptAt fil (k + 1)).z < (ptAt fil k).z
         then (fil.drop k ++ fil.take k).reverse
         else fil.drop k ++ fil.take k) with hd
    clear_value d
    cases d with
    | nil => rfl
    | cons p d' =>
      rw [closedCheck]
      have hhead : ((p :: d') ++ [(p :: d').headD pt0]).headD pt0 = p := rfl
      have hlast : ((p :: d') ++ [(p :: d').headD pt0]).getLastD pt0 = p :=
        List.getLastD_concat _ _ _
      rw [hhead, hlast, ptEq_refl]
      have hdrop : ((p :: d') ++ [(p :: d').headD pt0]).dropLast = p :: d' :=
        List.dropLast_concat
      rw [hdrop]
      simp [noConsecDup_of_allDistinct _ hdist]

theorem set_filtered_filaments_eq (atan : Q → Q → Q) (toroidalExtent magLen avgRadial : Q)
    (filaments : List Fil) :
    set_filtered_filaments atan toroidalExtent magLen avgRadial filaments =
      match mapCanon (sortByKey (fun fil => normAngle (comAngleRaw atan fil))
          (filaments.filter (retainFil atan (twoPi - 2 * atan magLen avgRadial)
            (toroidalExtent + 2 * atan magLen avgRadial)))) with
      | Except.error e => Except.error e
      | Except.ok canon => Except.ok (sortByKey (comAngleRaw atan) canon) := rfl

/-- C1: refuting evaluation.  The `toroidal_extent` setter converts 370
degrees to radians (about 6.458) and then compares the RADIAN value against
360.0, so no ValueError is raised for 370 degrees; the value is stored and
the constructor proceeds to filament processing.  Inputs 0 and -10 (outside
(0, 360]) are likewise accepted; only angles above about 20626 degrees
(e.g. 30000) trip the guard. -/
theorem c1_toroidal_extent_not_validated_in_degrees :
    set_toroidal_extent st0 370 = Except.ok { st0 with _toroidal_extent := deg2rad 370 } ∧
    raised (set_toroidal_extent st0 370) = false ∧
    raised (set_toroidal_extent st0 0) = false ∧
    raised (set_toroidal_extent st0 (-10)) = false ∧
    raised (set_toroidal_extent st0 30000) = true :=
  ⟨rfl, rfl, rfl, rfl, rfl⟩

/-- C2: refuting evaluation.  On the retained filament `filC2` the selected
start index 2 is a z-sign-crossing candidate of squared radius 100, but the
flip step reverses the whole sequence, so the produced filament starts at
(6, 0, 5), whose radial distance (6, squared 36) is strictly smaller than
that of the crossing candidate; the start point therefore does not have
the maximum radial distance among the z-sign-crossing candidates. -/
theorem c2_flip_moves_start_off_max_radius_crossing :
    set_filtered_filaments atanCE (mkq 157 100) 5 11 [filC2] = Except.ok [outC2] ∧
    outC2.headD pt0 = ⟨6, 0, 5⟩ ∧
    (2 ∈ candIdxs filC2) ∧
    radSq (outC2.headD pt0) < radSq (ptAt filC2 2) ∧
    Real.sqrt ((toRat (radSq (outC2.headD pt0)) : ℝ)) <
      Real.sqrt ((toRat (radSq (ptAt filC2 2)) : ℝ)) := by
  refine ⟨rfl, rfl, by decide, by decide, ?_⟩
  have h : radSq (outC2.headD pt0) < radSq (ptAt filC2 2) := by decide
  have h0 : (0 : Q) ≤ radSq (outC2.headD pt0) := by decide
  rw [Q.lt_iff] at h
  rw [Q.le_iff, toRat_zero] at h0
  exact Real.sqrt_lt_sqrt (by exact_mod_cast h0) (by exact_mod_cast h)

/-- C3: refuting evaluation.  On the retained filament `filC3` the flip
step reverses the whole sequence, and the produced filament starts with
z = 9 followed by z = 4: the z-coordinate of the second point is strictly
below that of the first, refuting the direction invariant. -/
theorem c3_second_point_z_below_start_after_flip :
    set_filtered_filaments atanCE (mkq 157 100) 5 11 [filC3] = Except.ok [outC3] ∧
    (ptAt outC3 1).z < (ptAt outC3 0).z :=
  ⟨rfl, by decide⟩

/-- C4 counterexample: a run of `_set_filtered_filaments` on two retained
filaments whose centers of mass sit at toroidal angles of about -0.0923 rad
(normalized 6.19) and +0.0923 rad.  The final sort uses the raw arctangent
values, so the output places the angle-6.19 filament before the angle-0.09
one, which is strictly decreasing in the normalized angle: the output is
not sorted by the center-of-mass toroidal angle normalized to [0, 2*pi). -/
theorem c4_normalized_sort_counterexample :
    set_filtered_filaments atanCE (mkq 157 100) 5 11 [filA, filB] =
      Except.ok [canonA, canonB] ∧
    sortedAscBy (fun fil => normAngle (comAngleRaw atanCE fil)) [canonA, canonB] = false :=
  ⟨rfl, rfl⟩

/-- C4 (amended): the sequence of filaments produced by
`_set_filtered_filaments` is non-decreasing in the RAW arctangent toroidal
angle (range (-pi, pi], no normalization) of each filament's
post-canonicalization center of mass, because the second, final sort uses
`np.arctan2` of the centers of mass without the `(phi + 2*pi) % (2*pi)`
normalization applied in the first sort. -/
theorem c4_output_sorted_by_raw_com_angle (atan : Q → Q → Q)
    (toroidalExtent magLen avgRadial : Q) (filaments out : List Fil)
    (h : set_filtered_filaments atan toroidalExtent magLen avgRadial filaments =
      Except.ok out) :
    sortedAscBy (comAngleRaw atan) out = true := by
  rw [set_filtered_filaments_eq] at h
  cases hmc : mapCanon (sortByKey (fun fil => normAngle (comAngleRaw atan fil))
      (filaments.filter (retainFil atan (twoPi - 2 * atan magLen avgRadial)
        (toroidalExtent + 2 * atan magLen avgRadial)))) with
  | error e =>
    rw [hmc] at h
    cases h
  | ok canon =>
    rw [hmc] at h
    injection h with h
    subst h
    exact sortByKey_sorted (comAngleRaw atan) canon

/-- C4 witness: the amended sort-order theorem applied to the concrete
two-filament run. -/
theorem c4_output_sorted_by_raw_com_angle_witness :
    sortedAscBy (comAngleRaw atanCE) [canonA, canonB] = true :=
  c4_output_sorted_by_raw_com_angle atanCE (mkq 157 100) 5 11 [filA, filB]
    [canonA, canonB] rfl

/-- C5: a nonempty filament passes the retention test of
`_set_filtered_filaments` exactly when its minimum or maximum normalized
point angle lies in the wrap-around window `[min_rad, 2*pi) ∪ [0, max_rad]`
with `min_rad = 2*pi - tol`, `max_rad = toroidal_extent + tol` and
`tol = 2*arctan2(mag_len, average_radial_distance)`; consequently every
retained filament has a point whose normalized toroidal angle lies in the
window, and every rejected filament has none. -/
theorem c5_retention_iff_window_membership (atan : Q → Q → Q)
    (toroidalExtent magLen avgRadial : Q) (fil : Fil) (hne : fil ≠ []) :
    (retainFil atan (twoPi - 2 * atan magLen avgRadial)
        (toroidalExtent + 2 * atan magLen avgRadial) fil = true ↔
      (inWindow (twoPi - 2 * atan magLen avgRadial)
         (toroidalExtent + 2 * atan magLen avgRadial) (listMin (phiPts atan fil)) ∨
       inWindow (twoPi - 2 * atan magLen avgRadial)
         (toroidalExtent + 2 * atan magLen avgRadial) (listMax (phiPts atan fil)))) ∧
    (retainFil atan (twoPi - 2 * atan magLen avgRadial)
        (toroidalExtent + 2 * atan magLen avgRadial) fil = true →
      ∃ p, p ∈ fil ∧ inWindow (twoPi - 2 * atan magLen avgRadial)
        (toroidalExtent + 2 * atan magLen avgRadial) (normAngle (atan p.y p.x))) ∧
    (retainFil atan (twoPi - 2 * atan magLen avgRadial)
        (toroidalExtent + 2 * atan magLen avgRadial) fil = false →
      ∀ p, p ∈ fil → ¬ inWindow (twoPi - 2 * atan magLen avgRadial)
        (toroidalExtent + 2 * atan magLen avgRadial) (normAngle (atan p.y p.x))) := by
  have hne' := phiPts_ne_nil atan fil hne
  have hmmem := listMin_mem (phiPts atan fil) hne'
  have hMmem := listMax_mem (phiPts atan fil) hne'
  have hm := phiPts_mem_bounds atan fil _ hmmem
  have hM := phiPts_mem_bounds atan fil _ hMmem
  have hiffm := inWindow_iff (twoPi - 2 * atan magLen avgRadial)
    (toroidalExtent + 2 * atan magLen avgRadial) (listMin (phiPts atan fil)) hm.1 hm.2
  have hiffM := inWindow_iff (twoPi - 2 * atan magLen avgRadial)
    (toroidalExtent + 2 * atan magLen avgRadial) (listMax (phiPts atan fil)) hM.1 hM.2
  have hiff := retainFil_eq_props atan (twoPi - 2 * atan magLen avgRadial)
    (toroidalExtent + 2 * atan magLen avgRadial) fil
  refine ⟨?_, ?_, ?_⟩
  · rw [hiff, hiffm, hiffM]
  · intro hret
    rcases (hiff.mp hret) with h | h
    · rcases List.mem_map.mp hmmem with ⟨p, hp, hpeq⟩
      exact ⟨p, hp, by rw [hpeq]; exact hiffm.mpr h⟩
    · rcases List.mem_map.mp hMmem with ⟨p, hp, hpeq⟩
      exact ⟨p, hp, by rw [hpeq]; exact hiffM.mpr h⟩
  · intro hret p hp hw
    have hretf : ¬ (retainFil atan (twoPi - 2 * atan magLen avgRadial)
        (toroidalExtent + 2 * atan magLen avgRadial) fil = true) := by
      rw [hret]
      simp
    rw [hiff] at hretf
    push_neg at hretf
    obtain ⟨⟨h1, h2⟩, h3, h4⟩ := hretf
    have hphimem : normAngle (atan p.y p.x) ∈ phiPts atan fil := by
      rw [phiPts, List.mem_map]
      exact ⟨p, hp, rfl⟩
    have hlo := listMin_le _ _ hphimem
    have hhi := le_listMax _ _ hphimem
    rcases hw with ⟨hge, _⟩ | ⟨_, hle⟩
    · exact h3 (Q.le_trans' hge hhi)
    · exact h2 (Q.le_trans' hlo hle)

/-- C5 witness: the retention characterization applied to the concrete
nonempty filament `filB`. -/
theorem c5_retention_iff_window_membership_witness :
    (retainFil atanCE (twoPi - 2 * atanCE 5 11)
        (mkq 157 100 + 2 * atanCE 5 11) filB = true ↔
      (inWindow (twoPi - 2 * atanCE 5 11)
         (mkq 157 100 + 2 * atanCE 5 11) (listMin (phiPts atanCE filB)) ∨
       inWindow (twoPi - 2 * atanCE 5 11)
         (mkq 157 100 + 2 * atanCE 5 11) (listMax (phiPts atanCE filB)))) ∧
    (retainFil atanCE (twoPi - 2 * atanCE 5 11)
        (mkq 157 100 + 2 * atanCE 5 11) filB = true →
      ∃ p, p ∈ filB ∧ inWindow (twoPi - 2 * atanCE 5 11)
        (mkq 157 100 + 2 * atanCE 5 11) (normAngle (atanCE p.y p.x))) ∧
    (retainFil atanCE (twoPi - 2 * atanCE 5 11)
        (mkq 157 100 + 2 * atanCE 5 11) filB = false →
      ∀ p, p ∈ filB → ¬ inWindow (twoPi - 2 * atanCE 5 11)
        (mkq 157 100 + 2 * atanCE 5 11) (normAngle (atanCE p.y p.x))) :=
  c5_retention_iff_window_membership atanCE (mkq 157 100) 5 11 filB (by decide)

/-- C6: every filament in a successful output of `_set_filtered_filaments`
is a closed polyline: its first point equals its last point, and no two
consecutive points other than the closing pair are equal (the
deduplication step makes all rows pairwise distinct before the closing
copy of the first point is appended). -/
theorem c6_canonical_outputs_closed (atan : Q → Q → Q)
    (toroidalExtent magLen avgRadial : Q) (filaments out : List Fil)
    (h : set_filtered_filaments atan toroidalExtent magLen avgRadial filaments =
      Except.ok out) :
    out.all closedCheck = true := by
  rw [set_filtered_filaments_eq] at h
  cases hmc : mapCanon (sortByKey (fun fil => normAngle (comAngleRaw atan fil))
      (filaments.filter (retainFil atan (twoPi - 2 * atan magLen avgRadial)
        (toroidalExtent + 2 * atan magLen avgRadial)))) with
  | error e =>
    rw [hmc] at h
    cases h
  | ok canon =>
    rw [hmc] at h
    injection h with h
    subst h
    rw [List.all_eq_true]
    intro x hx
    rw [mem_sortByKey] at hx
    obtain ⟨fil0, _, hc⟩ := mapCanon_ok_mem _ _ hmc x hx
    exact canonicalize_closed fil0 x hc

/-- C6 witness: the closure theorem applied to the concrete one-filament
run on `filC2`. -/
theorem c6_canonical_outputs_closed_witness :
    ([outC2] : List Fil).all closedCheck = true :=
  c6_canonical_outputs_closed atanCE (mkq 157 100) 5 11 [filC2] [outC2] rfl

/-- C7: refuting evaluation.  The filament `filC7` is retained and has no
z-sign-crossing pair of consecutive points, so the start-selection loop
leaves `min_z_index = None` and the direction check evaluates
`filament[min_z_index + 1, 2]`, i.e. `None + 1`: a TypeError that aborts
`_set_filtered_filaments` instead of leaving the filament unmodified. -/
theorem c7_no_z_crossing_raises_type_error :
    candIdxs filC7 = [] ∧
    retainFil atanCE (twoPi - 2 * atanCE 5 11) (mkq 157 100 + 2 * atanCE 5 11) filC7 = true ∧
    canonicalize filC7 = Except.error "TypeError" ∧
    set_filtered_filaments atanCE (mkq 157 100) 5 11 [filC7] = Except.error "TypeError" :=
  ⟨rfl, rfl, rfl, rfl⟩

/-- C8: `_extract_cross_section` yields the characteristic length 5 for the
specification circle with radius 5 (mag_len is the radius) and 4 for the
rectangle of width 4 and thickness 2 (mag_len is max(width, thickness)). -/
theorem c8_characteristic_length_circle_rectangle :
    extract_cross_section ⟨"circle", [5]⟩ =
      Except.ok ("circle", ShapeStr.circle 5, 5) ∧
    extract_cross_section ⟨"rectangle", [4, 2]⟩ =
      Except.ok ("rectangle", ShapeStr.rectangle 4 2, 4) :=
  ⟨rfl, rfl⟩

/-- C9: the validating setters are not atomic on error.  When
`_extract_cross_section` rejects the new specification, the raised error
leaves the object with `_cross_section` already overwritten by the invalid
value while `shape`, `shape_str` and `mag_len` keep their previous values;
when the `toroidal_extent` guard fires, the out-of-range value (converted
to radians) has already been stored in `_toroidal_extent`. -/
theorem c9_setters_mutate_before_raising (st : MagState) (v : CrossSec) (angle : Q)
    (e : String)
    (h1 : extract_cross_section v = Except.error e)
    (h2 : (360 : Q) < deg2rad angle) :
    set_cross_section st v = Except.error { st with _cross_section := v } ∧
    set_toroidal_extent st angle =
      Except.error { st with _toroidal_extent := deg2rad angle } := by
  constructor
  · rw [set_cross_section, h1]
  · rw [set_toroidal_extent, if_pos h2]

/-- C9 witness: the non-atomicity theorem applied to the invalid shape tag
triangle and the out-of-range angle 30000 degrees. -/
theorem c9_setters_mutate_before_raising_witness :
    set_cross_section st0 ⟨"triangle", [5]⟩ =
      Except.error { st0 with _cross_section := ⟨"triangle", [5]⟩ } ∧
    set_toroidal_extent st0 30000 =
      Except.error { st0 with _toroidal_extent := deg2rad 30000 } :=
  c9_setters_mutate_before_raising st0 ⟨"triangle", [5]⟩ 30000 "ValueError" rfl (by decide)

/-- C10 counterexample: a data line holding the single non-float token x
has fewer than four tokens and does not start with end, yet the scan
raises ValueError (from `float(columns[0])`), not IndexError, refuting the
claim as stated for lines with non-float tokens. -/
theorem c10_nonfloat_token_value_error_counterexample :
    ([Tok.str "x"] : List Tok).length < 4 ∧
    isEnd (Tok.str "x") = false ∧
    extract_filaments 100 1 [[Tok.str "x"]] = Except.error "ValueError" ∧
    ("ValueError" : String) ≠ "IndexError" :=
  ⟨by decide, rfl, rfl, by decide⟩

/-- C10 (amended): when the scan of `_extract_filaments` reaches a data
line with fewer than four tokens all of which parse as floats (for example
a blank line, which has no tokens), it raises an uncaught IndexError from
the unguarded `columns[i]` indexing, whatever the loop state; a short line
containing a non-float token raises ValueError from `float()` first
instead. -/
theorem c10_short_all_float_line_index_error (scale : Q) (sampleMod : Nat)
    (line : List Tok) (rest : List (List Tok)) (cnt : Nat) (coords : List Pt)
    (fils : List Fil)
    (hlen : line.length < 4) (hnum : line.all isNumTok = true) :
    extract_filaments_loop scale sampleMod (line :: rest) cnt coords fils =
      Except.error "IndexError" := by
  have hread : readLine scale line = Except.error "IndexError" := by
    match line, hlen, hnum with
    | [], _, _ => rfl
    | [Tok.num a], _, _ => rfl
    | [Tok.num a, Tok.num b], _, _ => rfl
    | [Tok.num a, Tok.num b, Tok.num c], _, _ => rfl
    | [Tok.str s], _, hnum => simp [List.all_cons, isNumTok] at hnum
    | (Tok.str s) :: _, _, hnum => simp [List.all_cons, isNumTok] at hnum
    | [Tok.num a, Tok.str s], _, hnum => simp [List.all_cons, isNumTok] at hnum
    | [Tok.num a, Tok.num b, Tok.str s], _, hnum => simp [List.all_cons, isNumTok] at hnum
  simp only [extract_filaments_loop]
  rw [hread]

/-- C10 witness: the amended IndexError theorem applied to a blank line at
the start of the scan. -/
theorem c10_short_all_float_line_index_error_witness :
    extract_filaments_loop 100 1 [[]] 0 [] [] = Except.error "IndexError" :=
  c10_short_all_float_line_index_error 100 1 [] [] 0 [] [] (by decide) (by decide)
